import Mathlib

set_option maxRecDepth 4000

/-!
Verification of `python-backend/question_generator.py`.

The script generates multiple-choice quiz questions by repeatedly calling an
external generative-model client, parsing each free-text response with a fixed
regular expression, deduplicating by question text, and finally writing the
accepted records to a JSON file.

The embedding below translates the script directly:

* `parse_mcq` embeds the Python function of the same name.  The Python code
  runs `re.search` with the pattern

    `Q:\s*(.*?)\nA\.\s*(.*?)\nB\.\s*(.*?)\nC\.\s*(.*?)\nD\.\s*(.*?)\nAnswer:\s*([ABCD])`

  under `re.DOTALL`.  The embedding reproduces the engine's behaviour on this
  pattern: `searchGroups` tries the pattern at positions 0, 1, 2, … (the
  `re.search` scan), and `matchGroups` performs one anchored attempt with full
  backtracking: each `\s*(.*?)<literal>` segment enumerates its candidate
  splits in engine order (greedy `\s*` longest first, lazy `(.*?)` shortest
  first), and on failure of the remainder of the pattern the next candidate is
  tried (`firstSome` over `segCands`).  Texts are modelled as `List Char`.

* The `while` loop (lines 77–96) is `loopAux`/`runGenerator`: state holds
  `dataset`, `seen_questions` and `tries`; the external client is modelled as
  a function from the attempt index (the value of `tries` at call time) to
  either a returned text (`some`) or a raised exception (`none`), which covers
  every possible sequence of client outcomes.  The `try/except` block is
  embedded by the `none` branch of `stepOnce`: an exception only increments
  `tries`, it never escapes the loop.

* `json.dump` writes exactly the accumulated list, so the persisted file is
  modelled by `outputFile`, the `dataset` component of the final state.

* The startup credential check (lines 21–23) is `programMain`: Python's
  `if not API_KEY` treats both an unset variable (`None`) and the empty
  string as missing.
-/

/-- Python's whitespace class `\s` (and the characters removed by
`str.strip()`), restricted to the ASCII whitespace characters; the script's
texts are ASCII, where the Python and embedded notions coincide. -/
def isPySpace (c : Char) : Bool :=
  c == ' ' || c == '\t' || c == '\n' || c == '\r' || c == '\x0b' || c == '\x0c'

/-- Trailing-whitespace removal, the right half of Python's `str.strip()`. -/
def trimRight (l : List Char) : List Char :=
  (l.reverse.dropWhile isPySpace).reverse

/-- Python's `str.strip()`: remove leading and trailing whitespace. -/
def pyStrip (l : List Char) : List Char :=
  trimRight (l.dropWhile isPySpace)

/-- The literal `Q:` opening the regex. -/
def patQ : List Char := ['Q', ':']

/-- The literal `\nA\.` of the regex. -/
def patA : List Char := ['\n', 'A', '.']

/-- The literal `\nB\.` of the regex. -/
def patB : List Char := ['\n', 'B', '.']

/-- The literal `\nC\.` of the regex. -/
def patC : List Char := ['\n', 'C', '.']

/-- The literal `\nD\.` of the regex. -/
def patD : List Char := ['\n', 'D', '.']

/-- The literal `\nAnswer:` of the regex. -/
def patAns : List Char := ['\n', 'A', 'n', 's', 'w', 'e', 'r', ':']

/-- Indices, in increasing order, at which `pat` occurs in the text: the
positions at which the lazy `(.*?)` can stop so that the following literal
matches. -/
def occs (pat : List Char) : List Char → List Nat
  | [] => if pat.isPrefixOf ([] : List Char) then [0] else []
  | c :: rest =>
    (if pat.isPrefixOf (c :: rest) then [0] else []) ++ (occs pat rest).map (· + 1)

/-- The list `[n, n-1, …, 0]`: the order in which a greedy `\s*` that consumed `n`
characters hands them back while backtracking. -/
def countdown : Nat → List Nat
  | 0 => [0]
  | n + 1 => (n + 1) :: countdown n

/-- Concatenation of the images of `f`, in order. -/
def catMap (f : α → List β) : List α → List β
  | [] => []
  | x :: xs => f x ++ catMap f xs

/-- First `some` produced by `f` along the list: depth-first backtracking
over an ordered candidate list. -/
def firstSome (f : α → Option β) : List α → Option β
  | [] => none
  | x :: xs => match f x with | some y => some y | none => firstSome f xs

/-- Candidate `(capture, rest)` splits for matching `\s*(.*?)` followed by the
literal `pat` against `text`, in exactly the order Python's backtracking
engine tries them: greedy `\s*` longest first and, for each whitespace
choice `e`, the lazy `(.*?)` shortest first, i.e. occurrences of `pat` in
`text.drop e` from left to right (`re.DOTALL` lets `.` match `\n`, so the
capture is unconstrained). -/
def segCands (pat text : List Char) : List (List Char × List Char) :=
  catMap
    (fun e =>
      (occs pat (text.drop e)).map
        (fun k => ((text.drop e).take k, (text.drop e).drop (k + pat.length))))
    (countdown (text.takeWhile isPySpace).length)

/-- The character class `[ABCD]` of the regex. -/
def isAnswerLetter (c : Char) : Bool :=
  c == 'A' || c == 'B' || c == 'C' || c == 'D'

/-- Candidate `(letter, rest)` splits for the final `\s*([ABCD])` of the
pattern, again with the greedy `\s*` backtracking from longest to shortest. -/
def ansCands (text : List Char) : List (Char × List Char) :=
  catMap
    (fun e =>
      match text.drop e with
      | [] => []
      | c :: rest => if isAnswerLetter c then [(c, rest)] else [])
    (countdown (text.takeWhile isPySpace).length)

/-- The six capture groups of the regex: question, options A–D, answer
letter. -/
abbrev Groups :=
  List Char × List Char × List Char × List Char × List Char × Char

/-- One anchored attempt of the regex at the start of `text`, with full
backtracking across the segments. -/
def matchGroups (text : List Char) : Option Groups :=
  if patQ.isPrefixOf text then
    firstSome (fun p1 =>
      firstSome (fun p2 =>
        firstSome (fun p3 =>
          firstSome (fun p4 =>
            firstSome (fun p5 =>
              firstSome (fun p6 => some (p1.1, p2.1, p3.1, p4.1, p5.1, p6.1))
                (ansCands p5.2))
              (segCands patAns p4.2))
            (segCands patD p3.2))
          (segCands patC p2.2))
        (segCands patB p1.2))
      (segCands patA (text.drop patQ.length))
  else none

/-- Model of `re.search`: attempt the pattern at position 0, then 1, 2, …, returning
the groups of the leftmost successful attempt. -/
def searchGroups : List Char → Option Groups
  | [] => matchGroups []
  | c :: rest =>
    match matchGroups (c :: rest) with
    | some g => some g
    | none => searchGroups rest

/-- The structured record built by `parse_mcq`: the Python dict with keys
`subject`, `level`, `question`, `options` (flattened to its four fixed keys
`A`–`D`) and `correct`.  The answer group is a single character of `[ABCD]`,
on which Python's `strip()` is the identity, so `correct` is a `Char`. -/
structure MCQ where
  subject : String
  level : String
  question : List Char
  optionA : List Char
  optionB : List Char
  optionC : List Char
  optionD : List Char
  correct : Char
deriving DecidableEq

/-- Function `parse_mcq` from the script: run the regex search; on failure return
`None`, otherwise build the record with every captured text field
`strip()`-ed.  The globals `subject` and `level` read from `sys.argv` are
passed as parameters. -/
def parse_mcq (subject level : String) (text : List Char) : Option MCQ :=
  match searchGroups text with
  | none => none
  | some (q, a, b, c, d, ans) =>
    some { subject := subject, level := level,
           question := pyStrip q,
           optionA := pyStrip a, optionB := pyStrip b,
           optionC := pyStrip c, optionD := pyStrip d,
           correct := ans }

/-- Function `build_prompt` from the script (an f-string; pure function of its three
inputs). -/
def build_prompt (subject level : String) (count : Nat) : String :=
  "\nGenerate a " ++ level ++ " level multiple choice quiz question in " ++
  subject ++
  ".\nMake it unique and totally different. Do not repeat previous questions.\nFormat exactly like this:\nQ: <question text>\nA. <option 1>\nB. <option 2>\nC. <option 3>\nD. <option 4>\nAnswer: <A/B/C/D>\n\nThis is question number " ++
  toString (count + 1) ++ ".\n"

/-- The loop state of the generation loop: `dataset` and `seen_questions`
(the Python set, kept as the list of question texts in insertion order, which
is all the loop observes via membership) and the attempt counter `tries`. -/
structure GenState where
  dataset : List MCQ
  seen_questions : List (List Char)
  tries : Nat
deriving DecidableEq

/-- One iteration of the loop body.  The external client is a function from
the attempt index (the value of `tries` when `model.generate_content` is
called) to `some text` (a returned response) or `none` (any exception raised
by the call or by reading `response.text`); the `try/except` block catches
the exception, logs it, and falls through to `tries += 1`. -/
def stepOnce (subject level : String) (client : Nat → Option (List Char))
    (s : GenState) : GenState :=
  match client s.tries with
  | none => { s with tries := s.tries + 1 }
  | some text =>
    match parse_mcq subject level text with
    | none => { s with tries := s.tries + 1 }
    | some parsed =>
      if parsed.question ∈ s.seen_questions then
        { s with tries := s.tries + 1 }
      else
        { dataset := s.dataset ++ [parsed],
          seen_questions := s.seen_questions ++ [parsed.question],
          tries := s.tries + 1 }

/-- The `while len(dataset) < 10 and tries < 30` loop.  `tries` increases by
exactly one per iteration starting from 0, so the guard `tries < 30` lets the
body run at most 30 times; the structural fuel therefore never runs out
before the guard stops the loop when started with fuel 30. -/
def loopAux (subject level : String) (client : Nat → Option (List Char)) :
    Nat → GenState → GenState
  | 0, s => s
  | f + 1, s =>
    if s.dataset.length < 10 ∧ s.tries < 30 then
      loopAux subject level client f (stepOnce subject level client s)
    else s

/-- The whole generation loop, from the empty initial state. -/
def runGenerator (subject level : String)
    (client : Nat → Option (List Char)) : GenState :=
  loopAux subject level client 30 { dataset := [], seen_questions := [], tries := 0 }

/-- The persisted artifact: `json.dump(dataset, f)` writes exactly the
accumulated list (as a JSON array, in list order) to
`data/questions_dataset.json`, so the file contents are modelled by the final
`dataset`. -/
def outputFile (subject level : String)
    (client : Nat → Option (List Char)) : List MCQ :=
  (runGenerator subject level client).dataset

/-- The `ValueError` message raised at startup. -/
def missingKeyMsg : String :=
  "❌ Error: GEMINI_API_KEY environment variable not set."

/-- The whole program: `os.getenv` yields `none` when the variable is unset;
Python's `if not API_KEY` is true for `None` and for the empty string, and
then `raise ValueError` aborts before the model is configured, before any
loop iteration, and before the output file is written (modelled by
`Except.error` carrying no generated data).  Otherwise the run proceeds to
the loop and the file write. -/
def programMain (apiKey : Option String) (subject level : String)
    (client : Nat → Option (List Char)) : Except String (List MCQ) :=
  match apiKey with
  | none => Except.error missingKeyMsg
  | some k =>
    if k = "" then Except.error missingKeyMsg
    else Except.ok (outputFile subject level client)

/-- Occurrence test for a pattern: `true` iff `pat` occurs as a contiguous
substring (used to state what "the label is missing" means). -/
def containsSub (pat : List Char) : List Char → Bool
  | [] => pat.isPrefixOf ([] : List Char)
  | c :: rest => pat.isPrefixOf (c :: rest) || containsSub pat rest

/-- Holds (as `true`) when the text has, at this position, `\nAnswer:` followed by
whitespace and then a letter of `[ABCD]`: the tail of the regex. -/
def goodAnswerAt (t : List Char) : Bool :=
  patAns.isPrefixOf t &&
    (match (t.drop patAns.length).dropWhile isPySpace with
     | [] => false
     | d :: _ => isAnswerLetter d)

/-- Holds (as `true`) when the text contains, anywhere, an `Answer:` line with a valid
letter, i.e. some position where `goodAnswerAt` holds. -/
def hasAnswerMark : List Char → Bool
  | [] => false
  | c :: rest => goodAnswerAt (c :: rest) || hasAnswerMark rest

/-! ## Helper lemmas about the matcher -/

theorem countdown_head (n : Nat) : ∃ r, countdown n = n :: r := by
  cases n with
  | zero => exact ⟨[], rfl⟩
  | succ m => exact ⟨countdown m, rfl⟩

theorem firstSome_cons_some {f : α → Option β} {x : α} {xs : List α} {y : β}
    (h : f x = some y) : firstSome f (x :: xs) = some y := by
  simp [firstSome, h]

theorem firstSome_eq_some {f : α → Option β} {y : β} :
    ∀ {L : List α}, firstSome f L = some y → ∃ x ∈ L, f x = some y := by
  intro L
  induction L with
  | nil => intro h; simp [firstSome] at h
  | cons x xs ih =>
    intro h
    rw [firstSome] at h
    cases hfx : f x with
    | some z =>
      rw [hfx] at h
      exact ⟨x, List.mem_cons_self x xs, by rw [hfx]; exact h⟩
    | none =>
      rw [hfx] at h
      obtain ⟨w, hw, hfw⟩ := ih h
      exact ⟨w, List.mem_cons_of_mem _ hw, hfw⟩

theorem mem_catMap {f : α → List β} {b : β} :
    ∀ {L : List α}, b ∈ catMap f L → ∃ a ∈ L, b ∈ f a := by
  intro L
  induction L with
  | nil => intro h; simp [catMap] at h
  | cons x xs ih =>
    intro h
    rw [catMap, List.mem_append] at h
    cases h with
    | inl h => exact ⟨x, List.mem_cons_self x xs, h⟩
    | inr h =>
      obtain ⟨a, ha, hb⟩ := ih h
      exact ⟨a, List.mem_cons_of_mem _ ha, hb⟩

theorem takeWhile_append_of_ne {p : α → Bool} (u v : List α)
    (h : ∃ x ∈ u, p x = false) :
    (u ++ v).takeWhile p = u.takeWhile p := by
  induction u with
  | nil => obtain ⟨x, hx, _⟩ := h; simp at hx
  | cons a u ih =>
    simp only [List.cons_append, List.takeWhile_cons]
    cases hpa : p a with
    | false => rfl
    | true =>
      obtain ⟨x, hx, hpx⟩ := h
      rcases List.mem_cons.mp hx with hxa | hxu
      · rw [hxa] at hpx; rw [hpx] at hpa; exact absurd hpa (by simp)
      · rw [ih ⟨x, hxu, hpx⟩]

theorem takeWhile_append_ws {p : α → Bool} (u v : List α) (c : α)
    (hu : ∀ x ∈ u, p x = true) (hc : p c = false) :
    (u ++ c :: v).takeWhile p = u := by
  rw [List.takeWhile_append_of_pos (by intro x hx; rw [hu x hx])]
  simp [List.takeWhile_cons, hc]

theorem drop_takeWhile_length {p : α → Bool} (l : List α) :
    l.drop (l.takeWhile p).length = l.dropWhile p := by
  calc l.drop (l.takeWhile p).length
      = (l.takeWhile p ++ l.dropWhile p).drop (l.takeWhile p).length := by
        rw [List.takeWhile_append_dropWhile]
    _ = l.dropWhile p := List.drop_left _ _

theorem mem_of_mem_dropWhile {p : α → Bool} {x : α} {l : List α}
    (h : x ∈ l.dropWhile p) : x ∈ l :=
  (List.dropWhile_sublist p).mem h

theorem isPrefixOf_append_self (l v : List Char) :
    l.isPrefixOf (l ++ v) = true := by
  simp only [List.isPrefixOf_iff_prefix]
  exact ⟨v, rfl⟩

theorem occs_append_head (pt : List Char) :
    ∀ (u : List Char), (∀ x ∈ u, ¬(x = '\n')) → ∀ (v : List Char),
      ∃ T, occs ('\n' :: pt) (u ++ (('\n' :: pt) ++ v)) = u.length :: T := by
  intro u
  induction u with
  | nil =>
    intro _ v
    refine ⟨(occs ('\n' :: pt) (pt ++ v)).map (· + 1), ?_⟩
    show occs ('\n' :: pt) ('\n' :: (pt ++ v)) = 0 :: _
    rw [occs]
    have hpre : ('\n' :: pt).isPrefixOf ('\n' :: (pt ++ v)) = true :=
      isPrefixOf_append_self ('\n' :: pt) v
    rw [hpre]
    rfl
  | cons c u ih =>
    intro hu v
    have hc : ¬('\n' = c) := fun h => (hu c (List.mem_cons_self c u)) h.symm
    obtain ⟨T, hT⟩ := ih (fun x hx => hu x (List.mem_cons_of_mem c hx)) v
    refine ⟨T.map (· + 1), ?_⟩
    show occs ('\n' :: pt) (c :: (u ++ (('\n' :: pt) ++ v))) = (u.length + 1) :: _
    rw [occs]
    have hpre : ('\n' :: pt).isPrefixOf (c :: (u ++ (('\n' :: pt) ++ v))) = false := by
      simp [List.isPrefixOf, hc]
    rw [hpre, hT]
    simp

/-- When the text is `u ++ pat ++ v` with `u` free of newlines and containing
at least one non-whitespace character, the backtracking engine's very first
candidate for a `\s*(.*?)pat` segment is the intended one: it captures `u`
minus its leading whitespace and leaves exactly `v`. -/
theorem segCands_head (c1 : Char) (pt : List Char)
    (u v : List Char) (hu : ∀ x ∈ u, ¬(x = '\n'))
    (hnw : ∃ x ∈ u, isPySpace x = false) :
    ∃ T, segCands ('\n' :: c1 :: pt) (u ++ (('\n' :: c1 :: pt) ++ v)) =
      (u.dropWhile isPySpace, v) :: T := by
  have h_tw : ((u ++ (('\n' :: c1 :: pt) ++ v)).takeWhile isPySpace).length =
      (u.takeWhile isPySpace).length := by
    rw [takeWhile_append_of_ne u _ hnw]
  have hsplit : u ++ (('\n' :: c1 :: pt) ++ v) =
      u.takeWhile isPySpace ++ (u.dropWhile isPySpace ++ (('\n' :: c1 :: pt) ++ v)) := by
    conv_rhs => rw [← List.append_assoc, List.takeWhile_append_dropWhile]
  have hdrop : (u ++ (('\n' :: c1 :: pt) ++ v)).drop (u.takeWhile isPySpace).length =
      u.dropWhile isPySpace ++ (('\n' :: c1 :: pt) ++ v) := by
    rw [hsplit, List.drop_left]
  obtain ⟨r, hr⟩ := countdown_head (u.takeWhile isPySpace).length
  obtain ⟨T, hT⟩ := occs_append_head (c1 :: pt) (u.dropWhile isPySpace)
    (fun x hx => hu x (mem_of_mem_dropWhile hx)) v
  have htake : (u.dropWhile isPySpace ++ (('\n' :: c1 :: pt) ++ v)).take
      (u.dropWhile isPySpace).length = u.dropWhile isPySpace := List.take_left _ _
  have hdrop2 : (u.dropWhile isPySpace ++ (('\n' :: c1 :: pt) ++ v)).drop
      ((u.dropWhile isPySpace).length + ('\n' :: c1 :: pt).length) = v := by
    rw [← List.length_append, ← List.append_assoc, List.drop_left]
  rw [segCands, h_tw, hr, catMap, hdrop, hT, List.map_cons, htake, hdrop2]
  exact ⟨_, rfl⟩

theorem answer_letter_not_space {c : Char} (h : isAnswerLetter c = true) :
    isPySpace c = false := by
  rw [isAnswerLetter] at h
  rcases Bool.or_eq_true_iff.mp h with h | h
  · rcases Bool.or_eq_true_iff.mp h with h | h
    · rcases Bool.or_eq_true_iff.mp h with h | h
      · rw [show c = 'A' from by simpa using h]; decide
      · rw [show c = 'B' from by simpa using h]; decide
    · rw [show c = 'C' from by simpa using h]; decide
  · rw [show c = 'D' from by simpa using h]; decide

/-- The first candidate for the trailing `\s*([ABCD])` on a text of the form
`ws ++ letter :: post` (with `ws` whitespace and `letter` a valid answer
letter) picks out exactly `letter`. -/
theorem ansCands_head (ws : List Char) (hws : ∀ x ∈ ws, isPySpace x = true)
    (letter : Char) (hl : isAnswerLetter letter = true) (post : List Char) :
    ∃ T, ansCands (ws ++ letter :: post) = (letter, post) :: T := by
  have h_tw : ((ws ++ letter :: post).takeWhile isPySpace).length = ws.length := by
    rw [takeWhile_append_ws ws post letter hws (answer_letter_not_space hl)]
  obtain ⟨r, hr⟩ := countdown_head ws.length
  have hdrop : (ws ++ letter :: post).drop ws.length = letter :: post :=
    List.drop_left _ _
  rw [ansCands, h_tw, hr, catMap, hdrop]
  dsimp only
  rw [if_pos hl]
  exact ⟨_, rfl⟩

/-- An anchored attempt of the regex on a text of the expected layout: every
segment's first backtracking candidate is the intended split, so the attempt
succeeds and captures the labeled fields (minus the leading whitespace the
greedy `\s*` already consumed). -/
theorem matchGroups_layout
    (q a b c d ws : List Char) (letter : Char) (post : List Char)
    (hq : ∀ x ∈ q, ¬(x = '\n')) (hq2 : ∃ x ∈ q, isPySpace x = false)
    (ha : ∀ x ∈ a, ¬(x = '\n')) (ha2 : ∃ x ∈ a, isPySpace x = false)
    (hb : ∀ x ∈ b, ¬(x = '\n')) (hb2 : ∃ x ∈ b, isPySpace x = false)
    (hc : ∀ x ∈ c, ¬(x = '\n')) (hc2 : ∃ x ∈ c, isPySpace x = false)
    (hd : ∀ x ∈ d, ¬(x = '\n')) (hd2 : ∃ x ∈ d, isPySpace x = false)
    (hws : ∀ x ∈ ws, isPySpace x = true) (hl : isAnswerLetter letter = true) :
    matchGroups (patQ ++ (q ++ (patA ++ (a ++ (patB ++ (b ++ (patC ++ (c ++
        (patD ++ (d ++ (patAns ++ (ws ++ letter :: post)))))))))))) =
      some (q.dropWhile isPySpace, a.dropWhile isPySpace, b.dropWhile isPySpace,
            c.dropWhile isPySpace, d.dropWhile isPySpace, letter) := by
  obtain ⟨T1, h1⟩ := segCands_head 'A' ['.'] q
    (a ++ (patB ++ (b ++ (patC ++ (c ++ (patD ++ (d ++ (patAns ++ (ws ++ letter :: post))))))))) hq hq2
  obtain ⟨T2, h2⟩ := segCands_head 'B' ['.'] a
    (b ++ (patC ++ (c ++ (patD ++ (d ++ (patAns ++ (ws ++ letter :: post))))))) ha ha2
  obtain ⟨T3, h3⟩ := segCands_head 'C' ['.'] b
    (c ++ (patD ++ (d ++ (patAns ++ (ws ++ letter :: post))))) hb hb2
  obtain ⟨T4, h4⟩ := segCands_head 'D' ['.'] c
    (d ++ (patAns ++ (ws ++ letter :: post))) hc hc2
  obtain ⟨T5, h5⟩ := segCands_head 'A' ['n', 's', 'w', 'e', 'r', ':'] d
    (ws ++ letter :: post) hd hd2
  obtain ⟨T6, h6⟩ := ansCands_head ws hws letter hl post
  rw [matchGroups]
  rw [if_pos (by rw [isPrefixOf_append_self])]
  rw [List.drop_left]
  simp only [patA, patB, patC, patD, patAns] at h1 h2 h3 h4 h5 ⊢
  rw [h1]
  apply firstSome_cons_some
  dsimp only
  rw [h2]
  apply firstSome_cons_some
  dsimp only
  rw [h3]
  apply firstSome_cons_some
  dsimp only
  rw [h4]
  apply firstSome_cons_some
  dsimp only
  rw [h5]
  apply firstSome_cons_some
  dsimp only
  rw [h6]
  apply firstSome_cons_some
  rfl

theorem searchGroups_of_matchGroups {t : List Char} {g : Groups}
    (h : matchGroups t = some g) : searchGroups t = some g := by
  cases t with
  | nil => exact h
  | cons c rest => rw [searchGroups, h]

theorem searchGroups_isSome_of_drop {text : List Char} {i : Nat} {g : Groups}
    (h : matchGroups (text.drop i) = some g) :
    ∃ g', searchGroups text = some g' := by
  induction text generalizing i with
  | nil =>
    rw [List.drop_nil] at h
    exact ⟨g, h⟩
  | cons c rest ih =>
    cases hm : matchGroups (c :: rest) with
    | some g2 => exact ⟨g2, by rw [searchGroups, hm]⟩
    | none =>
      cases i with
      | zero => rw [List.drop_zero] at h; rw [hm] at h; exact absurd h (by simp)
      | succ j =>
        obtain ⟨g', hg'⟩ := ih (i := j) h
        exact ⟨g', by rw [searchGroups, hm]; exact hg'⟩

theorem searchGroups_elim {text : List Char} {g : Groups}
    (h : searchGroups text = some g) :
    ∃ i, matchGroups (text.drop i) = some g := by
  induction text with
  | nil => exact ⟨0, h⟩
  | cons c rest ih =>
    rw [searchGroups] at h
    cases hm : matchGroups (c :: rest) with
    | some g2 =>
      rw [hm] at h
      exact ⟨0, by rw [List.drop_zero, hm]; exact h⟩
    | none =>
      rw [hm] at h
      obtain ⟨i, hi⟩ := ih h
      exact ⟨i + 1, hi⟩

theorem pyStrip_dropWhile (l : List Char) :
    pyStrip (l.dropWhile isPySpace) = pyStrip l := by
  rw [pyStrip, pyStrip, List.dropWhile_idempotent]

/-! ## Claims -/

/-- C1: for every model response text of the expected layout — a `Q:` line,
four option lines labeled `A.`–`D.`, and a final `Answer:` line with one of
the letters A/B/C/D — `parse_mcq` returns a record whose question, four
option values and correct-answer letter exactly equal the corresponding
labeled fields of the input, each trimmed of leading and trailing
whitespace.  The labeled fields `q`, `a`, `b`, `c`, `d` are the line contents
after their labels (single lines, hence newline-free, with visible content);
`ws` is the whitespace separating `Answer:` from the letter. -/
theorem parse_mcq_layout (subject level : String)
    (q a b c d ws : List Char) (letter : Char)
    (hq : ∀ x ∈ q, ¬(x = '\n')) (hq2 : ∃ x ∈ q, isPySpace x = false)
    (ha : ∀ x ∈ a, ¬(x = '\n')) (ha2 : ∃ x ∈ a, isPySpace x = false)
    (hb : ∀ x ∈ b, ¬(x = '\n')) (hb2 : ∃ x ∈ b, isPySpace x = false)
    (hc : ∀ x ∈ c, ¬(x = '\n')) (hc2 : ∃ x ∈ c, isPySpace x = false)
    (hd : ∀ x ∈ d, ¬(x = '\n')) (hd2 : ∃ x ∈ d, isPySpace x = false)
    (hws : ∀ x ∈ ws, isPySpace x = true) (hl : isAnswerLetter letter = true) :
    parse_mcq subject level
        (patQ ++ (q ++ (patA ++ (a ++ (patB ++ (b ++ (patC ++ (c ++
          (patD ++ (d ++ (patAns ++ (ws ++ [letter])))))))))))) =
      some { subject := subject, level := level,
             question := pyStrip q,
             optionA := pyStrip a, optionB := pyStrip b,
             optionC := pyStrip c, optionD := pyStrip d,
             correct := letter } := by
  have hm := matchGroups_layout q a b c d ws letter []
    hq hq2 ha ha2 hb hb2 hc hc2 hd hd2 hws hl
  rw [parse_mcq, searchGroups_of_matchGroups hm]
  dsimp only
  rw [pyStrip_dropWhile, pyStrip_dropWhile, pyStrip_dropWhile,
    pyStrip_dropWhile, pyStrip_dropWhile]

/-- Witness for C1 at a concrete well-formed response. -/
theorem parse_mcq_layout_witness :
    parse_mcq "Python" "Beginner"
        (patQ ++ (" What is 2+2?".data ++ (patA ++ (" 3".data ++ (patB ++
          (" 4".data ++ (patC ++ (" 5".data ++ (patD ++ (" 22".data ++
          (patAns ++ (" ".data ++ ['B'])))))))))))) =
      some { subject := "Python", level := "Beginner",
             question := pyStrip " What is 2+2?".data,
             optionA := pyStrip " 3".data, optionB := pyStrip " 4".data,
             optionC := pyStrip " 5".data, optionD := pyStrip " 22".data,
             correct := 'B' } :=
  parse_mcq_layout "Python" "Beginner"
    " What is 2+2?".data " 3".data " 4".data " 5".data " 22".data " ".data 'B'
    (by decide) (by decide) (by decide) (by decide) (by decide) (by decide)
    (by decide) (by decide) (by decide) (by decide) (by decide) (by decide)

/-- C2 counterexample: `parse_mcq` uses `re.search`, which scans for the
pattern anywhere in the text, so a response with commentary before and after
the question block is parsed successfully — the claim that such deviations
cause rejection is false at this input. -/
theorem parse_mcq_full_match_counterexample :
    parse_mcq "Python" "Beginner"
        "Sure! Here is a question:\nQ: What is 2+2?\nA. 3\nB. 4\nC. 5\nD. 22\nAnswer: B\nGood luck!".data ≠
      none := by
  decide

/-- C2 (amended): `parse_mcq` succeeds whenever the pattern matches some
substring of the text (the `re.search` contract): commentary before or after
a well-formed question block never causes rejection.  Deviations inside the
block itself (a missing label, reordered sections) still reject — see the C3
theorem. -/
theorem parse_mcq_search_context (subject level : String)
    (pre q a b c d ws : List Char) (letter : Char) (post : List Char)
    (hq : ∀ x ∈ q, ¬(x = '\n')) (hq2 : ∃ x ∈ q, isPySpace x = false)
    (ha : ∀ x ∈ a, ¬(x = '\n')) (ha2 : ∃ x ∈ a, isPySpace x = false)
    (hb : ∀ x ∈ b, ¬(x = '\n')) (hb2 : ∃ x ∈ b, isPySpace x = false)
    (hc : ∀ x ∈ c, ¬(x = '\n')) (hc2 : ∃ x ∈ c, isPySpace x = false)
    (hd : ∀ x ∈ d, ¬(x = '\n')) (hd2 : ∃ x ∈ d, isPySpace x = false)
    (hws : ∀ x ∈ ws, isPySpace x = true) (hl : isAnswerLetter letter = true) :
    parse_mcq subject level
        (pre ++ (patQ ++ (q ++ (patA ++ (a ++ (patB ++ (b ++ (patC ++ (c ++
          (patD ++ (d ++ (patAns ++ (ws ++ letter :: post))))))))))))) ≠
      none := by
  have hm := matchGroups_layout q a b c d ws letter post
    hq hq2 ha ha2 hb hb2 hc hc2 hd hd2 hws hl
  obtain ⟨g', hg'⟩ := searchGroups_isSome_of_drop (i := pre.length)
    (by rw [List.drop_left]; exact hm)
  obtain ⟨q', a', b', c', d', ans'⟩ := g'
  rw [parse_mcq, hg']
  simp

/-- Witness for the amended C2 at a concrete input with commentary on both
sides of the block. -/
theorem parse_mcq_search_context_witness :
    parse_mcq "Python" "Beginner"
        ("Sure! Here is a question:\n".data ++ (patQ ++ (" What is 2+2?".data ++
          (patA ++ (" 3".data ++ (patB ++ (" 4".data ++ (patC ++ (" 5".data ++
          (patD ++ (" 22".data ++ (patAns ++ (" ".data ++ 'B' ::
            "\nGood luck!".data))))))))))))) ≠
      none :=
  parse_mcq_search_context "Python" "Beginner"
    "Sure! Here is a question:\n".data " What is 2+2?".data " 3".data " 4".data
    " 5".data " 22".data " ".data 'B' "\nGood luck!".data
    (by decide) (by decide) (by decide) (by decide) (by decide) (by decide)
    (by decide) (by decide) (by decide) (by decide) (by decide) (by decide)

theorem mem_countdown {n e : Nat} (h : e ∈ countdown n) : e ≤ n := by
  induction n with
  | zero =>
    rw [countdown] at h
    rcases List.mem_singleton.mp h with rfl
    exact Nat.le_refl 0
  | succ m ih =>
    rw [countdown] at h
    rcases List.mem_cons.mp h with rfl | h
    · exact Nat.le_refl _
    · exact Nat.le_succ_of_le (ih h)

theorem mem_occs {pat : List Char} :
    ∀ {l : List Char} {k : Nat}, k ∈ occs pat l →
      pat.isPrefixOf (l.drop k) = true := by
  intro l
  induction l with
  | nil =>
    intro k h
    rw [occs] at h
    by_cases hp : pat.isPrefixOf ([] : List Char) = true
    · rw [if_pos hp] at h
      rcases List.mem_singleton.mp h with rfl
      simpa using hp
    · rw [if_neg hp] at h
      simp at h
  | cons c rest ih =>
    intro k h
    rw [occs, List.mem_append] at h
    rcases h with h | h
    · by_cases hp : pat.isPrefixOf (c :: rest) = true
      · rw [if_pos hp] at h
        rcases List.mem_singleton.mp h with rfl
        simpa using hp
      · rw [if_neg hp] at h
        simp at h
    · obtain ⟨k', hk', rfl⟩ := List.mem_map.mp h
      exact ih hk'

theorem segCands_mem_structure {pat t : List Char} {x : List Char × List Char}
    (hx : x ∈ segCands pat t) :
    ∃ j, pat.isPrefixOf (t.drop j) = true ∧ x.2 = t.drop (j + pat.length) := by
  obtain ⟨e, _, hx'⟩ := mem_catMap hx
  obtain ⟨k, hk, rfl⟩ := List.mem_map.mp hx'
  refine ⟨e + k, ?_, ?_⟩
  · have := mem_occs hk
    rwa [List.drop_drop] at this
  · show (t.drop e).drop (k + pat.length) = _
    rw [List.drop_drop, Nat.add_assoc]

theorem drop_within_takeWhile {p : α → Bool} {c : α} :
    ∀ {t : List α} {e : Nat} {rest : List α},
      e ≤ (t.takeWhile p).length → t.drop e = c :: rest → p c = false →
      t.dropWhile p = c :: rest := by
  intro t
  induction t with
  | nil => intro e rest _ hd _; simp at hd
  | cons x t' ih =>
    intro e rest he hd hc
    cases hpx : p x with
    | false =>
      rw [List.takeWhile_cons, hpx, if_neg (by simp)] at he
      simp only [List.length_nil, Nat.le_zero] at he
      rw [he, List.drop_zero] at hd
      rw [List.dropWhile_cons, hpx, if_neg (by simp)]
      exact hd
    | true =>
      rw [List.takeWhile_cons, hpx, if_pos rfl] at he
      cases e with
      | zero =>
        rw [List.drop_zero] at hd
        injection hd with h1 _
        rw [h1, hc] at hpx
        exact absurd hpx (by simp)
      | succ e' =>
        rw [List.dropWhile_cons, hpx, if_pos rfl]
        exact ih (Nat.le_of_succ_le_succ (by simpa using he)) (by simpa using hd) hc

theorem ansCands_mem_structure {t : List Char} {x : Char × List Char}
    (hx : x ∈ ansCands t) :
    isAnswerLetter x.1 = true ∧ t.dropWhile isPySpace = x.1 :: x.2 := by
  obtain ⟨e, hem, hx'⟩ := mem_catMap hx
  have he : e ≤ (t.takeWhile isPySpace).length := mem_countdown hem
  cases hd : t.drop e with
  | nil => rw [hd] at hx'; simp at hx'
  | cons c rest =>
    rw [hd] at hx'
    dsimp only at hx'
    by_cases hval : isAnswerLetter c = true
    · rw [if_pos hval] at hx'
      rcases List.mem_singleton.mp hx' with rfl
      exact ⟨hval, drop_within_takeWhile he hd (answer_letter_not_space hval)⟩
    · rw [if_neg hval] at hx'
      simp at hx'

theorem containsSub_of_drop {pat : List Char} :
    ∀ {text : List Char} {i : Nat},
      pat.isPrefixOf (text.drop i) = true → containsSub pat text = true := by
  intro text
  induction text with
  | nil =>
    intro i h
    rw [List.drop_nil] at h
    rw [containsSub]
    exact h
  | cons c rest ih =>
    intro i h
    rw [containsSub]
    cases i with
    | zero =>
      rw [List.drop_zero] at h
      rw [h]
      rfl
    | succ j =>
      rw [ih (i := j) (by simpa using h)]
      simp

theorem hasAnswerMark_of_drop :
    ∀ {text : List Char} {i : Nat},
      goodAnswerAt (text.drop i) = true → hasAnswerMark text = true := by
  intro text
  induction text with
  | nil =>
    intro i h
    rw [List.drop_nil] at h
    exact absurd h (by decide)
  | cons c rest ih =>
    intro i h
    rw [hasAnswerMark]
    cases i with
    | zero =>
      rw [List.drop_zero] at h
      rw [h]
      rfl
    | succ j =>
      rw [ih (i := j) (by simpa using h)]
      simp

theorem goodAnswerAt_build {t : List Char} {n : Nat} {c : Char} {rest : List Char}
    (h1 : patAns.isPrefixOf (t.drop n) = true)
    (h2 : (t.drop (n + patAns.length)).dropWhile isPySpace = c :: rest)
    (h3 : isAnswerLetter c = true) :
    goodAnswerAt (t.drop n) = true := by
  rw [goodAnswerAt, h1]
  rw [List.drop_drop, h2]
  simp [h3]

/-- Every successful anchored attempt of the regex contains the `Q:` literal
at the start, each option label somewhere, and an `Answer:` mark followed by
a valid letter somewhere. -/
theorem matchGroups_elim {t : List Char} {g : Groups}
    (h : matchGroups t = some g) :
    patQ.isPrefixOf t = true ∧
    (∃ j, patA.isPrefixOf (t.drop j) = true) ∧
    (∃ j, patB.isPrefixOf (t.drop j) = true) ∧
    (∃ j, patC.isPrefixOf (t.drop j) = true) ∧
    (∃ j, patD.isPrefixOf (t.drop j) = true) ∧
    (∃ j, goodAnswerAt (t.drop j) = true) := by
  rw [matchGroups] at h
  cases hcq : patQ.isPrefixOf t with
  | false => rw [hcq] at h; simp at h
  | true =>
    rw [hcq, if_pos rfl] at h
    obtain ⟨p1, hp1m, hp1⟩ := firstSome_eq_some h
    obtain ⟨j1, hj1, hrest1⟩ := segCands_mem_structure hp1m
    rw [List.drop_drop] at hj1 hrest1
    obtain ⟨p2, hp2m, hp2⟩ := firstSome_eq_some hp1
    obtain ⟨j2, hj2, hrest2⟩ := segCands_mem_structure hp2m
    rw [hrest1, List.drop_drop] at hj2 hrest2
    obtain ⟨p3, hp3m, hp3⟩ := firstSome_eq_some hp2
    obtain ⟨j3, hj3, hrest3⟩ := segCands_mem_structure hp3m
    rw [hrest2, List.drop_drop] at hj3 hrest3
    obtain ⟨p4, hp4m, hp4⟩ := firstSome_eq_some hp3
    obtain ⟨j4, hj4, hrest4⟩ := segCands_mem_structure hp4m
    rw [hrest3, List.drop_drop] at hj4 hrest4
    obtain ⟨p5, hp5m, hp5⟩ := firstSome_eq_some hp4
    obtain ⟨j5, hj5, hrest5⟩ := segCands_mem_structure hp5m
    rw [hrest4, List.drop_drop] at hj5 hrest5
    obtain ⟨p6, hp6m, _⟩ := firstSome_eq_some hp5
    obtain ⟨hval, hdw⟩ := ansCands_mem_structure hp6m
    refine ⟨rfl, ⟨_, hj1⟩, ⟨_, hj2⟩, ⟨_, hj3⟩, ⟨_, hj4⟩,
      ⟨_, @goodAnswerAt_build t _ p6.1 p6.2 hj5 ?_ hval⟩⟩
    rw [Nat.add_assoc, ← hrest5]
    exact hdw

/-- C3: a response missing any required label — the `Q:` mark, one of the
option labels `\nA.`–`\nD.` (i.e. an option line), or an `Answer:` line
bearing a letter of {A, B, C, D} — is rejected: `parse_mcq` returns `none`.
(The option labels are modelled as the regex literals `\nA.` … `\nD.`, and the
valid answer line as an occurrence of `\nAnswer:` followed by whitespace and a
letter of `[ABCD]`.)  Because the result is an `Option MCQ` whose `some`
constructor carries every field, a partially populated record can never be
produced: rejection is total. -/
theorem parse_mcq_missing_label (subject level : String) (text : List Char)
    (h : containsSub patQ text = false ∨ containsSub patA text = false ∨
         containsSub patB text = false ∨ containsSub patC text = false ∨
         containsSub patD text = false ∨ hasAnswerMark text = false) :
    parse_mcq subject level text = none := by
  cases hs : searchGroups text with
  | none => rw [parse_mcq, hs]
  | some g =>
    exfalso
    obtain ⟨i, hm⟩ := searchGroups_elim hs
    obtain ⟨h0, ⟨jA, hA⟩, ⟨jB, hB⟩, ⟨jC, hC⟩, ⟨jD, hD⟩, ⟨jE, hE⟩⟩ :=
      matchGroups_elim hm
    rw [List.drop_drop] at hA hB hC hD hE
    have c0 := containsSub_of_drop h0
    have cA := containsSub_of_drop hA
    have cB := containsSub_of_drop hB
    have cC := containsSub_of_drop hC
    have cD := containsSub_of_drop hD
    have cE := hasAnswerMark_of_drop hE
    rcases h with h | h | h | h | h | h
    · rw [h] at c0; simp at c0
    · rw [h] at cA; simp at cA
    · rw [h] at cB; simp at cB
    · rw [h] at cC; simp at cC
    · rw [h] at cD; simp at cD
    · rw [h] at cE; simp at cE

/-- Witness for C3 at a concrete response whose `B.` option line is
missing. -/
theorem parse_mcq_missing_label_witness :
    parse_mcq "Python" "Beginner"
        "Q: What is 2+2?\nA. 3\nC. 5\nD. 22\nAnswer: B".data = none :=
  parse_mcq_missing_label "Python" "Beginner"
    "Q: What is 2+2?\nA. 3\nC. 5\nD. 22\nAnswer: B".data
    (Or.inr (Or.inr (Or.inl (by decide))))

/-! ## Loop lemmas -/

theorem stepOnce_error {subject level : String} {client : Nat → Option (List Char)}
    {s : GenState} (h1 : client s.tries = none) :
    stepOnce subject level client s = { s with tries := s.tries + 1 } := by
  rw [stepOnce, h1]

theorem stepOnce_parsefail {subject level : String} {client : Nat → Option (List Char)}
    {s : GenState} {text : List Char} (h1 : client s.tries = some text)
    (h2 : parse_mcq subject level text = none) :
    stepOnce subject level client s = { s with tries := s.tries + 1 } := by
  rw [stepOnce, h1]
  dsimp only
  rw [h2]

theorem stepOnce_dup {subject level : String} {client : Nat → Option (List Char)}
    {s : GenState} {text : List Char} {parsed : MCQ}
    (h1 : client s.tries = some text)
    (h2 : parse_mcq subject level text = some parsed)
    (h3 : parsed.question ∈ s.seen_questions) :
    stepOnce subject level client s = { s with tries := s.tries + 1 } := by
  rw [stepOnce, h1]
  dsimp only
  rw [h2]
  dsimp only
  rw [if_pos h3]

theorem stepOnce_accept {subject level : String} {client : Nat → Option (List Char)}
    {s : GenState} {text : List Char} {parsed : MCQ}
    (h1 : client s.tries = some text)
    (h2 : parse_mcq subject level text = some parsed)
    (h3 : ¬ parsed.question ∈ s.seen_questions) :
    stepOnce subject level client s =
      { dataset := s.dataset ++ [parsed],
        seen_questions := s.seen_questions ++ [parsed.question],
        tries := s.tries + 1 } := by
  rw [stepOnce, h1]
  dsimp only
  rw [h2]
  dsimp only
  rw [if_neg h3]

/-- Every loop iteration either leaves `dataset` and `seen_questions`
untouched (error, parse failure, duplicate) or appends one new record and its
question text; `tries` always increases by exactly one. -/
theorem stepOnce_cases (subject level : String) (client : Nat → Option (List Char))
    (s : GenState) :
    stepOnce subject level client s = { s with tries := s.tries + 1 } ∨
    ∃ parsed : MCQ, ¬ parsed.question ∈ s.seen_questions ∧
      stepOnce subject level client s =
        { dataset := s.dataset ++ [parsed],
          seen_questions := s.seen_questions ++ [parsed.question],
          tries := s.tries + 1 } := by
  cases h1 : client s.tries with
  | none => exact Or.inl (stepOnce_error h1)
  | some text =>
    cases h2 : parse_mcq subject level text with
    | none => exact Or.inl (stepOnce_parsefail h1 h2)
    | some parsed =>
      by_cases h3 : parsed.question ∈ s.seen_questions
      · exact Or.inl (stepOnce_dup h1 h2 h3)
      · exact Or.inr ⟨parsed, h3, stepOnce_accept h1 h2 h3⟩

theorem loopAux_len_le (subject level : String) (client : Nat → Option (List Char)) :
    ∀ (f : Nat) (s : GenState), s.dataset.length ≤ 10 →
      (loopAux subject level client f s).dataset.length ≤ 10 := by
  intro f
  induction f with
  | zero => intro s hs; exact hs
  | succ f ih =>
    intro s hs
    rw [loopAux]
    by_cases hcond : s.dataset.length < 10 ∧ s.tries < 30
    · rw [if_pos hcond]
      apply ih
      rcases stepOnce_cases subject level client s with h | ⟨parsed, _, h⟩
      · rw [h]; exact hs
      · rw [h]
        simp only [List.length_append, List.length_singleton]
        exact hcond.1
    · rw [if_neg hcond]; exact hs

theorem loopAux_tries_le (subject level : String) (client : Nat → Option (List Char)) :
    ∀ (f : Nat) (s : GenState), s.tries ≤ 30 →
      (loopAux subject level client f s).tries ≤ 30 := by
  intro f
  induction f with
  | zero => intro s hs; exact hs
  | succ f ih =>
    intro s hs
    rw [loopAux]
    by_cases hcond : s.dataset.length < 10 ∧ s.tries < 30
    · rw [if_pos hcond]
      apply ih
      rcases stepOnce_cases subject level client s with h | ⟨parsed, _, h⟩ <;>
        rw [h] <;> exact hcond.2
    · rw [if_neg hcond]; exact hs

/-- C4: whatever the sequence of client outcomes, after any number of loop
iterations the accepted dataset holds at most 10 records and `tries` — which
counts exactly one increment per execution of the loop body — never exceeds
30; in particular this holds for the loop's final state `runGenerator`. -/
theorem loop_budget (subject level : String) (client : Nat → Option (List Char))
    (fuel : Nat) :
    ((loopAux subject level client fuel
        { dataset := [], seen_questions := [], tries := 0 }).dataset.length ≤ 10 ∧
      (loopAux subject level client fuel
        { dataset := [], seen_questions := [], tries := 0 }).tries ≤ 30) ∧
    ((runGenerator subject level client).dataset.length ≤ 10 ∧
      (runGenerator subject level client).tries ≤ 30) :=
  ⟨⟨loopAux_len_le subject level client fuel _ (by simp),
    loopAux_tries_le subject level client fuel _ (by simp)⟩,
   ⟨loopAux_len_le subject level client 30 _ (by simp),
    loopAux_tries_le subject level client 30 _ (by simp)⟩⟩

theorem loopAux_seen_inv (subject level : String) (client : Nat → Option (List Char)) :
    ∀ (f : Nat) (s : GenState),
      s.seen_questions = s.dataset.map MCQ.question → s.seen_questions.Nodup →
      (loopAux subject level client f s).seen_questions =
          (loopAux subject level client f s).dataset.map MCQ.question ∧
        (loopAux subject level client f s).seen_questions.Nodup := by
  intro f
  induction f with
  | zero => intro s h1 h2; exact ⟨h1, h2⟩
  | succ f ih =>
    intro s h1 h2
    rw [loopAux]
    by_cases hcond : s.dataset.length < 10 ∧ s.tries < 30
    · rw [if_pos hcond]
      rcases stepOnce_cases subject level client s with h | ⟨parsed, hmem, h⟩
      · rw [h]; exact ih _ h1 h2
      · rw [h]
        apply ih
        · simp [h1]
        · simp only [List.nodup_append, List.nodup_singleton]
          refine ⟨h2, trivial, ?_⟩
          intro x hx hx'
          rcases List.mem_singleton.mp hx' with rfl
          exact hmem hx
    · rw [if_neg hcond]; exact ⟨h1, h2⟩

/-- C5: whatever the sequence of client outcomes, after any number of loop
iterations the accepted dataset never contains two records with the same
(trimmed) question text — exact, case- and whitespace-sensitive string
comparison. -/
theorem loop_questions_nodup (subject level : String)
    (client : Nat → Option (List Char)) (fuel : Nat) :
    ((loopAux subject level client fuel
        { dataset := [], seen_questions := [], tries := 0 }).dataset.map
      MCQ.question).Nodup := by
  have h := loopAux_seen_inv subject level client fuel
    { dataset := [], seen_questions := [], tries := 0 } (by simp) (by simp)
  rw [← h.1]
  exact h.2

theorem loopAux_allfail (subject level : String) (client : Nat → Option (List Char))
    (hcl : ∀ i, client i = none) :
    ∀ (f : Nat) (s : GenState), s.dataset = [] → s.tries ≤ 30 →
      loopAux subject level client f s =
        { dataset := [], seen_questions := s.seen_questions,
          tries := min (s.tries + f) 30 } := by
  intro f
  induction f with
  | zero =>
    intro s h1 h2
    rw [loopAux]
    cases s with
    | mk d q t =>
      dsimp only at h1 h2 ⊢
      rw [h1, Nat.add_zero, Nat.min_eq_left h2]
  | succ f ih =>
    intro s h1 h2
    rw [loopAux]
    by_cases ht : s.tries < 30
    · rw [if_pos ⟨by simp [h1], ht⟩]
      rw [stepOnce_error (hcl s.tries)]
      rw [ih { s with tries := s.tries + 1 } h1 ht]
      have harith : s.tries + 1 + f = s.tries + (f + 1) := by omega
      rw [harith]
    · rw [if_neg (fun hh => ht hh.2)]
      have h30 : s.tries = 30 := by omega
      cases s with
      | mk d q t =>
        dsimp only at h1 h30 ⊢
        rw [h1, h30, Nat.min_eq_right (by omega)]

/-- C7: if every client call raises, no exception escapes the loop (the
`except` branch of `stepOnce` only increments `tries`), the loop runs through
all 30 attempts, and the file written at the end contains the empty array. -/
theorem loop_allfail (subject level : String) (client : Nat → Option (List Char))
    (hcl : ∀ i, client i = none) :
    outputFile subject level client = [] ∧
    (runGenerator subject level client).tries = 30 := by
  have h := loopAux_allfail subject level client hcl 30
    { dataset := [], seen_questions := [], tries := 0 } rfl (by simp)
  rw [outputFile, runGenerator, h]
  simp

/-- Witness for C7 with the always-raising client. -/
theorem loop_allfail_witness :
    outputFile "Python" "Beginner" (fun _ => none) = [] ∧
    (runGenerator "Python" "Beginner" (fun _ => none)).tries = 30 :=
  loop_allfail "Python" "Beginner" (fun _ => none) (fun _ => rfl)

theorem loopAux_accept_run (subject level : String)
    (client : Nat → Option (List Char)) (resp : Nat → List Char) (r : Nat → MCQ)
    (hc : ∀ i, i < 10 → client i = some (resp i))
    (hp : ∀ i, i < 10 → parse_mcq subject level (resp i) = some (r i))
    (hinj : ∀ i, i < 10 → ∀ j, j < 10 →
      (r i).question = (r j).question → i = j) :
    ∀ (f k : Nat), k ≤ 10 → 10 ≤ k + f →
      loopAux subject level client f
        { dataset := (List.range k).map r,
          seen_questions := ((List.range k).map r).map MCQ.question,
          tries := k } =
      { dataset := (List.range 10).map r,
        seen_questions := ((List.range 10).map r).map MCQ.question,
        tries := 10 } := by
  intro f
  induction f with
  | zero =>
    intro k hk1 hk2
    have hk : k = 10 := by omega
    subst hk
    rw [loopAux]
  | succ f ih =>
    intro k hk1 hk2
    by_cases hk10 : k = 10
    · subst hk10
      rw [loopAux, if_neg (fun hh => by simp at hh)]
    · have hklt : k < 10 := by omega
      rw [loopAux, if_pos ⟨by simp [hklt], by show k < 30; omega⟩]
      have hmem : ¬ (r k).question ∈ ((List.range k).map r).map MCQ.question := by
        intro hmem
        simp only [List.map_map, List.mem_map, List.mem_range,
          Function.comp] at hmem
        obtain ⟨j, hj, heq⟩ := hmem
        have := hinj j (by omega) k (by omega) heq
        omega
      rw [stepOnce_accept (hc k hklt) (hp k hklt) hmem]
      have hds : (List.range k).map r ++ [r k] = (List.range (k + 1)).map r := by
        rw [List.range_succ]; simp
      have hsq : ((List.range k).map r).map MCQ.question ++ [(r k).question] =
          ((List.range (k + 1)).map r).map MCQ.question := by
        rw [List.range_succ]; simp
      rw [hds, hsq]
      exact ih (k + 1) (by omega) (by omega)

/-- C6: if the client returns well-formed responses with ten pairwise-distinct
question texts on its first ten calls, the loop accepts each of them in call
order, terminates after exactly 10 attempts, and the persisted file contains
exactly those ten parsed records in call order. -/
theorem loop_ten_distinct (subject level : String)
    (client : Nat → Option (List Char)) (resp : Nat → List Char) (r : Nat → MCQ)
    (hc : ∀ i, i < 10 → client i = some (resp i))
    (hp : ∀ i, i < 10 → parse_mcq subject level (resp i) = some (r i))
    (hinj : ∀ i, i < 10 → ∀ j, j < 10 →
      (r i).question = (r j).question → i = j) :
    outputFile subject level client = (List.range 10).map r ∧
    (runGenerator subject level client).tries = 10 := by
  have h := loopAux_accept_run subject level client resp r hc hp hinj 30 0
    (by omega) (by omega)
  have hinit : ({ dataset := [], seen_questions := [], tries := 0 } : GenState) =
      { dataset := (List.range 0).map r,
        seen_questions := ((List.range 0).map r).map MCQ.question,
        tries := 0 } := rfl
  rw [outputFile, runGenerator, hinit, h]
  exact ⟨rfl, rfl⟩

/-- A demonstration client for the C6 witness: ten distinct well-formed
responses. -/
def demoText (i : Nat) : List Char :=
  "Q: question ".data ++ (toString i).data ++
    "\nA. a1\nB. b2\nC. c3\nD. d4\nAnswer: A".data

/-- The record `parse_mcq` extracts from `demoText i`. -/
def demoRec (i : Nat) : MCQ :=
  { subject := "Python", level := "Beginner",
    question := "question ".data ++ (toString i).data,
    optionA := "a1".data, optionB := "b2".data, optionC := "c3".data,
    optionD := "d4".data, correct := 'A' }

/-- The always-successful demonstration client. -/
def demoClient (i : Nat) : Option (List Char) := some (demoText i)

/-- Witness for C6 with the demonstration client. -/
theorem loop_ten_distinct_witness :
    outputFile "Python" "Beginner" demoClient = (List.range 10).map demoRec ∧
    (runGenerator "Python" "Beginner" demoClient).tries = 10 :=
  loop_ten_distinct "Python" "Beginner" demoClient demoText demoRec
    (fun _ _ => rfl) (by decide) (by decide)

/-- The well-formed response returned on even-numbered attempts of the
alternating client. -/
def altTextX : List Char := "Q: alt\nA. a1\nB. b1\nC. c1\nD. d1\nAnswer: A".data

/-- The duplicate-of-the-first response (same question text, different
options) returned on odd-numbered attempts. -/
def altTextY : List Char := "Q: alt\nA. a2\nB. b2\nC. c2\nD. d2\nAnswer: B".data

/-- The record parsed from `altTextX`. -/
def altRecX : MCQ :=
  { subject := "Python", level := "Beginner", question := "alt".data,
    optionA := "a1".data, optionB := "b1".data, optionC := "c1".data,
    optionD := "d1".data, correct := 'A' }

/-- The record parsed from `altTextY`. -/
def altRecY : MCQ :=
  { subject := "Python", level := "Beginner", question := "alt".data,
    optionA := "a2".data, optionB := "b2".data, optionC := "c2".data,
    optionD := "d2".data, correct := 'B' }

/-- The alternating client: one well-formed response, then one
duplicate-of-the-first response, and so on. -/
def altClient (i : Nat) : Option (List Char) :=
  if i % 2 = 0 then some altTextX else some altTextY

/-- C8 counterexample: for a client that alternates one well-formed response
and one duplicate-of-the-first response, the run does stop at attempt 30, but
with exactly 1 accepted record — the claimed "exactly 2 accepted records" is
false at this instance.  (After the first acceptance every later response,
well-formed or duplicate, carries the already-seen question text and is
skipped as a duplicate.) -/
theorem loop_alternating_counterexample :
    parse_mcq "Python" "Beginner" altTextX = some altRecX ∧
    parse_mcq "Python" "Beginner" altTextY = some altRecY ∧
    altRecY.question = altRecX.question ∧
    (runGenerator "Python" "Beginner" altClient).tries = 30 ∧
    (runGenerator "Python" "Beginner" altClient).dataset.length = 1 ∧
    ¬ ((runGenerator "Python" "Beginner" altClient).dataset.length = 2) := by
  refine ⟨by decide, by decide, rfl, ?_, ?_, ?_⟩ <;> decide

theorem loopAux_alternating_dup (subject level : String)
    (client : Nat → Option (List Char)) (tX tY : List Char) (rX rY : MCQ)
    (hall : ∀ i, client i = some tX ∨ client i = some tY)
    (hpX : parse_mcq subject level tX = some rX)
    (hpY : parse_mcq subject level tY = some rY)
    (hdup : rY.question = rX.question) :
    ∀ (f : Nat) (s : GenState), s.dataset = [rX] →
      s.seen_questions = [rX.question] → s.tries ≤ 30 →
      loopAux subject level client f s =
        { dataset := [rX], seen_questions := [rX.question],
          tries := min (s.tries + f) 30 } := by
  intro f
  induction f with
  | zero =>
    intro s h1 h2 h3
    rw [loopAux]
    cases s with
    | mk d q t =>
      dsimp only at h1 h2 h3 ⊢
      rw [h1, h2, Nat.add_zero, Nat.min_eq_left h3]
  | succ f ih =>
    intro s h1 h2 h3
    rw [loopAux]
    by_cases ht : s.tries < 30
    · rw [if_pos ⟨by simp [h1], ht⟩]
      have hdupstep : stepOnce subject level client s =
          { s with tries := s.tries + 1 } := by
        rcases hall s.tries with hcl | hcl
        · exact stepOnce_dup hcl hpX (by rw [h2]; exact List.mem_singleton.mpr rfl)
        · exact stepOnce_dup hcl hpY
            (by rw [h2, hdup]; exact List.mem_singleton.mpr rfl)
      rw [hdupstep, ih { s with tries := s.tries + 1 } h1 h2 ht]
      have harith : s.tries + 1 + f = s.tries + (f + 1) := by omega
      rw [harith]
    · rw [if_neg (fun hh => ht hh.2)]
      have h30 : s.tries = 30 := by omega
      cases s with
      | mk d q t =>
        dsimp only at h1 h2 h30 ⊢
        rw [h1, h2, h30, Nat.min_eq_right (by omega)]

/-- C8 (amended): if the client alternates one fixed well-formed response and
one duplicate-of-the-first response on successive calls, the loop accepts the
first response, rejects every later response as a duplicate, and stops at
attempt 30 with exactly 1 accepted record — not 10 (and not 2). -/
theorem loop_alternating_dup (subject level : String)
    (client : Nat → Option (List Char)) (tX tY : List Char) (rX rY : MCQ)
    (hX : ∀ k, client (2 * k) = some tX)
    (hY : ∀ k, client (2 * k + 1) = some tY)
    (hpX : parse_mcq subject level tX = some rX)
    (hpY : parse_mcq subject level tY = some rY)
    (hdup : rY.question = rX.question) :
    (runGenerator subject level client).dataset = [rX] ∧
    (runGenerator subject level client).tries = 30 := by
  have hall : ∀ i, client i = some tX ∨ client i = some tY := by
    intro i
    rcases Nat.even_or_odd i with ⟨k, hk⟩ | ⟨k, hk⟩
    · left
      have := hX k
      rw [Nat.two_mul] at this
      rw [hk]
      exact this
    · right
      rw [hk]
      exact hY k
  have hstep0 : stepOnce subject level client
      { dataset := [], seen_questions := [], tries := 0 } =
      { dataset := [rX], seen_questions := [rX.question], tries := 1 } := by
    have hc0 : client 0 = some tX := by
      have := hX 0
      simpa using this
    exact stepOnce_accept hc0 hpX (by simp)
  have hrun : runGenerator subject level client =
      { dataset := [rX], seen_questions := [rX.question], tries := 30 } := by
    rw [runGenerator]
    show loopAux subject level client (29 + 1) _ = _
    rw [loopAux, if_pos ⟨by simp, by decide⟩, hstep0,
      loopAux_alternating_dup subject level client tX tY rX rY hall hpX hpY hdup
        29 _ rfl rfl (by simp)]
    congr 1
  rw [hrun]
  exact ⟨rfl, rfl⟩

/-- Witness for the amended C8 with the concrete alternating client. -/
theorem loop_alternating_dup_witness :
    (runGenerator "Python" "Beginner" altClient).dataset = [altRecX] ∧
    (runGenerator "Python" "Beginner" altClient).tries = 30 :=
  loop_alternating_dup "Python" "Beginner" altClient altTextX altTextY
    altRecX altRecY
    (fun k => by rw [altClient, if_pos (by omega)])
    (fun k => by rw [altClient, if_neg (by omega)])
    (by decide) (by decide) rfl

/-- C9: with the API credential absent from the environment, the program
aborts at startup with the `ValueError`: the result is the startup error for
every client whatsoever, so no model call is consumed, no loop iteration
runs, and no output data is produced (`Except.error` carries no dataset). -/
theorem startup_missing_key (subject level : String)
    (client : Nat → Option (List Char)) :
    programMain none subject level client = Except.error missingKeyMsg := rfl

/-- C10: an API credential set to the empty string is falsy for Python's
`if not API_KEY`, so the program behaves exactly as if the variable were
unset: the same startup `ValueError`, before any generation attempt, for
every client. -/
theorem startup_empty_key (subject level : String)
    (client : Nat → Option (List Char)) :
    programMain (some "") subject level client =
        programMain none subject level client ∧
      programMain (some "") subject level client = Except.error missingKeyMsg := by
  constructor
  · rw [programMain, programMain, if_pos rfl]
  · rw [programMain, if_pos rfl]
